import Mathlib

/-!
Verification of the govedits change-ingestion and classification pipeline.

The Python sources are shallowly embedded: pure functions become Lean
functions over `List Char` / `String` / `Int`, stateful code becomes
explicit state passing, fallible code returns `Option` / `Except`.
External collaborators (the Python standard library's `ipaddress` and
`re` modules, `dateutil`, the network, the filesystem) appear either as
concrete models (documented at each definition) or as oracle function
parameters.
-/

set_option maxRecDepth 4000

namespace Gov

/-! ## Character and digit utilities -/

/-- ASCII decimal digit test, `'0' ≤ c ≤ '9'`. -/
def isDigitChar (c : Char) : Bool := '0' ≤ c && c ≤ '9'

/-- Numeric value of an ASCII digit character. -/
def charVal (c : Char) : Nat := c.toNat - 48

/-- ASCII digit character for a value below ten. -/
def digitChar (n : Nat) : Char := Char.ofNat (n + 48)

/-- Characters stripped by Python `str.strip()` (the common ASCII whitespace;
exotic unicode spaces are outside the model). -/
def isSpaceChar (c : Char) : Bool :=
  c = ' ' || c = '\t' || c = '\n' || c = '\r' || c = '\x0b' || c = '\x0c'

/-- Decimal value of a digit string, folding left; `digitsValAux a l`
starts from accumulator `a`. -/
def digitsValAux (a : Nat) (l : List Char) : Nat :=
  l.foldl (fun acc c => 10 * acc + charVal c) a

/-- Decimal value of a digit string (empty list gives 0). -/
def digitsVal (l : List Char) : Nat := digitsValAux 0 l

/-- Model of Python `str.strip()`: drop leading and trailing whitespace. -/
def pyStrip (l : List Char) : List Char :=
  ((l.dropWhile isSpaceChar).reverse.dropWhile isSpaceChar).reverse

/-- Model of Python `str.lower()` on ASCII letters. -/
def lowerChar (c : Char) : Char :=
  if 'A' ≤ c && c ≤ 'Z' then Char.ofNat (c.toNat + 32) else c

/-- Lower-case a character list (model of `str.lower()`). -/
def pyLower (l : List Char) : List Char := l.map lowerChar

/-- Model of Python `str.split('.')`: `splitOnDot []` is `[[]]`, matching
`''.split('.') == ['']`. -/
def splitOnDot : List Char → List (List Char)
  | [] => [[]]
  | c :: rest =>
    if c = '.' then [] :: splitOnDot rest
    else
      match splitOnDot rest with
      | [] => [[c]]
      | p :: ps => (c :: p) :: ps

/-- Model of Python `'.'.join(...)` on character lists. -/
def joinDots : List (List Char) → List Char
  | [] => []
  | [p] => p
  | p :: ps => p ++ '.' :: joinDots ps

/-- Fuel-driven decimal printer; `natToDigitsCore fuel n` is the decimal
digits of `n` provided `n < 10 ^ fuel`. -/
def natToDigitsCore : Nat → Nat → List Char
  | 0, _ => []
  | fuel + 1, n =>
    if n < 10 then [digitChar n]
    else natToDigitsCore fuel (n / 10) ++ [digitChar (n % 10)]

/-- Decimal digits of a natural number (model of Python `str` on
nonnegative `int`). -/
def natToDigits (n : Nat) : List Char := natToDigitsCore (n + 1) n

/-- Model of Python `str` on `int`, as a character list. -/
def intToChars : Int → List Char
  | Int.ofNat n => natToDigits n
  | Int.negSucc n => '-' :: natToDigits (n + 1)

/-- Model of Python `int(s)` for ASCII decimal strings: surrounding
whitespace is stripped, one optional sign, then at least one digit.
(Underscore separators and non-ASCII digits, which CPython also accepts,
do not arise from the inputs modelled here.) -/
def pyIntChars (l : List Char) : Option Int :=
  match pyStrip l with
  | [] => none
  | c :: rest =>
    if c = '-' then
      if rest ≠ [] ∧ rest.all isDigitChar then some (-(Int.ofNat (digitsVal rest))) else none
    else if c = '+' then
      if rest ≠ [] ∧ rest.all isDigitChar then some (Int.ofNat (digitsVal rest)) else none
    else if (c :: rest).all isDigitChar then some (Int.ofNat (digitsVal (c :: rest)))
    else none

/-! ## IPv4 normalization and parsing (`core/ip_matcher.py`) -/

/-- One octet of `IPNetworkCache.normalize_ipv4`: a blank part becomes
`"0"`, otherwise `str(int(part))`; `none` models the exception path. -/
def normalizePart (p : List Char) : Option (List Char) :=
  if pyStrip p = [] then some ['0']
  else (pyIntChars p).map intToChars

/-- All octets of `normalize_ipv4`; `none` when any part raises. -/
def normalizeParts : List (List Char) → Option (List (List Char))
  | [] => some []
  | p :: ps =>
    match normalizePart p, normalizeParts ps with
    | some q, some qs => some (q :: qs)
    | _, _ => none

/-- `IPNetworkCache.normalize_ipv4`: strip the string, split on `'.'`,
rewrite each part, rejoin; on any per-part `int()` failure return the
stripped original string unchanged. -/
def normalize_ipv4 (s : String) : String :=
  let t := pyStrip s.toList
  match normalizeParts (splitOnDot t) with
  | some cleaned => String.mk (joinDots cleaned)
  | none => String.mk t

/-- Model of one octet check of Python `ipaddress.IPv4Address`: decimal
digits only, at most three of them, no leading zero (except `"0"`
itself), value at most 255. -/
def parseOctetChars (l : List Char) : Option Nat :=
  if l ≠ [] ∧ l.all isDigitChar ∧ l.length ≤ 3 ∧ (l.length = 1 ∨ l.headD ' ' ≠ '0') then
    if digitsVal l ≤ 255 then some (digitsVal l) else none
  else none

/-- Model of `int(ipaddress.IPv4Address(s))`: four dot-separated octets,
combined big-endian. -/
def parseIPv4 (s : String) : Option Nat :=
  match splitOnDot s.toList with
  | [a, b, c, d] =>
    match parseOctetChars a, parseOctetChars b, parseOctetChars c, parseOctetChars d with
    | some x, some y, some z, some w => some (((x * 256 + y) * 256 + z) * 256 + w)
    | _, _, _, _ => none
  | _ => none

/-! ## Substring search (Python `in` on strings) -/

/-- Whether `p` is an initial segment of `l`. -/
def isPrefixChars : List Char → List Char → Bool
  | [], _ => true
  | _ :: _, [] => false
  | a :: as, b :: bs => a == b && isPrefixChars as bs

/-- Model of Python `needle in hay` for strings. -/
def occursChars (needle : List Char) : List Char → Bool
  | [] => isPrefixChars needle []
  | c :: rest => isPrefixChars needle (c :: rest) || occursChars needle rest

/-! ## The classifier data model (`core/ip_matcher.py`) -/

/-- Address family tag: the two per-family range lists of
`IPNetworkCache.networks`. -/
inductive Family
  | v4
  | v6
deriving DecidableEq, Repr

/-- One loaded tuple `(start_ip, end_ip, organization, is_federal,
is_congress)` of `IPNetworkCache.networks`. -/
structure NetRange where
  startIp : Nat
  endIp : Nat
  org : String
  isFederal : Bool
  isCongress : Bool
deriving DecidableEq, Repr

/-- The two per-family range lists of `IPNetworkCache.networks`. -/
structure Networks where
  v4 : List NetRange
  v6 : List NetRange
deriving DecidableEq, Repr

/-- Select the list for one family. -/
def famList (nets : Networks) : Family → List NetRange
  | Family.v4 => nets.v4
  | Family.v6 => nets.v6

/-- The containment test `start_ip <= ip_int <= end_ip` of `check_ip`. -/
def rangeContains (v : Nat) (r : NetRange) : Bool :=
  decide (r.startIp ≤ v ∧ v ≤ r.endIp)

/-- The linear scan of `check_ip`: return the first matching range's
organization, else `(false, "")`. -/
def scanRanges (v : Nat) : List NetRange → Bool × String
  | [] => (false, "")
  | r :: rest => if rangeContains v r then (true, r.org) else scanRanges v rest

/-- `IPNetworkCache.check_ip` after address parsing: `none` models any
parse failure (the `except` branches return `(False, "")`), `some (f, v)`
a successful parse to family `f` with integer value `v`. -/
def check_ip (nets : Networks) (parsed : Option (Family × Nat)) : Bool × String :=
  match parsed with
  | none => (false, "")
  | some (f, v) => scanRanges v (famList nets f)

/-- `IPNetworkCache.check_ip` on a query string, with the
normalize-and-parse step (`ipaddress.ip_address`) supplied as an oracle
`parse`. -/
def check_ip_str (parse : String → Option (Family × Nat)) (nets : Networks)
    (s : String) : Bool × String :=
  check_ip nets (parse s)

/-! ## Loading the range table (`IPNetworkCache.load_government_networks`) -/

/-- Filter level constants from `config/settings.py`. -/
def FILTER_ALL : String := "all"

/-- Filter level `'federal'` from `config/settings.py`. -/
def FILTER_FEDERAL : String := "federal"

/-- Filter level `'congress'` from `config/settings.py`. -/
def FILTER_CONGRESS : String := "congress"

/-- Keyword membership `'kw' in org_lower` used by the congress test. -/
def kwIn (s : String) (o : List Char) : Bool := occursChars s.toList o

/-- The `is_congress` keyword-membership disjunction of
`load_government_networks` (lines 90-144), over the lower-cased
organization string.  The `supreme court` clause is conjoined with
`u.s.` exactly as Python's `and`/`or` precedence groups it. -/
def isCongressOrg (o : List Char) : Bool :=
  kwIn "u.s. senate" o ||
  kwIn "united states senate" o ||
  kwIn "u.s. house of representatives" o ||
  kwIn "united states congress" o ||
  kwIn "congressional budget office" o ||
  kwIn "united states capitol police" o ||
  (o == "senate".toList) ||
  (o == "house of representatives".toList) ||
  kwIn "white house" o ||
  kwIn "executive office of the president" o ||
  (kwIn "supreme court" o && kwIn "u.s." o) ||
  kwIn "u.s. district court" o ||
  kwIn "united states district court" o ||
  kwIn "u.s. probation" o ||
  kwIn "department of state" o ||
  kwIn "department of defense" o ||
  kwIn "department of justice" o ||
  kwIn "department of the treasury" o ||
  kwIn "department of homeland security" o ||
  kwIn "department of agriculture" o ||
  kwIn "department of commerce" o ||
  kwIn "department of labor" o ||
  kwIn "department of education" o ||
  kwIn "department of energy" o ||
  kwIn "department of health and human services" o ||
  kwIn "department of housing and urban development" o ||
  kwIn "department of the interior" o ||
  kwIn "department of transportation" o ||
  kwIn "department of veterans affairs" o ||
  kwIn "federal bureau of investigation" o ||
  kwIn "fbi" o ||
  kwIn "federal aviation administration" o ||
  kwIn "federal communications commission" o ||
  kwIn "federal election commission" o ||
  kwIn "federal emergency management agency" o ||
  kwIn "federal energy regulatory commission" o ||
  kwIn "federal highway administration" o ||
  kwIn "federal trade commission" o ||
  kwIn "federal reserve" o ||
  kwIn "federal retirement thrift investment board" o ||
  kwIn "food and drug administration" o ||
  kwIn "united states postal service" o ||
  kwIn "united states mint" o ||
  kwIn "united states patent and trademark office" o ||
  kwIn "nuclear regulatory commission" o ||
  kwIn "united states air force" o ||
  kwIn "united states coast guard" o ||
  kwIn "department of the air force" o

/-- One CSV row of the range table as read by `csv.DictReader`
(missing fields default as in the source: `is_federal` defaults `'no'`). -/
structure CsvRow where
  start_ip : String
  end_ip : String
  organization : String
  is_federal : String
deriving DecidableEq, Repr

/-- The two `continue` filters of `load_government_networks`
(lines 146-151): `true` when the row survives the filter level. -/
def levelKeeps (level : String) (isFed isCon : Bool) : Bool :=
  if level == FILTER_CONGRESS && !isCon then false
  else if level == FILTER_FEDERAL && !isFed then false
  else true

/-- Processing of one CSV row by `load_government_networks`: strip the
fields, skip rows with missing data, apply the filter level, then parse
the pair of addresses (IPv6 when the start contains `'::'`, else IPv4
via `normalize_ipv4`).  IPv6 parsing (`normalize_ipv6` plus
`ipaddress.IPv6Address`) is supplied as the oracle `pv6`.  `none` models
every skipped row. -/
def loadRow (pv6 : String → Option Nat) (level : String) (row : CsvRow) :
    Option (Family × NetRange) :=
  let startIp := pyStrip row.start_ip.toList
  let endIp := pyStrip row.end_ip.toList
  let org := pyStrip row.organization.toList
  let isFed := pyLower (pyStrip row.is_federal.toList) == "yes".toList
  if startIp = [] ∨ endIp = [] ∨ org = [] then none
  else
    let isCon := isCongressOrg (pyLower org)
    if levelKeeps level isFed isCon then
      if occursChars "::".toList startIp then
        match pv6 (String.mk startIp), pv6 (String.mk endIp) with
        | some s, some e => some (Family.v6, ⟨s, e, String.mk org, isFed, isCon⟩)
        | _, _ => none
      else
        match parseIPv4 (normalize_ipv4 (String.mk startIp)),
              parseIPv4 (normalize_ipv4 (String.mk endIp)) with
        | some s, some e => some (Family.v4, ⟨s, e, String.mk org, isFed, isCon⟩)
        | _, _ => none
    else none

/-- `IPNetworkCache.load_government_networks` over an in-memory row list
(the CSV file itself is external): surviving rows are appended to the
per-family lists in file order. -/
def load_government_networks (pv6 : String → Option Nat) (level : String)
    (rows : List CsvRow) : Networks :=
  { v4 := rows.filterMap fun row =>
      match loadRow pv6 level row with
      | some (Family.v4, r) => some r
      | _ => none
    v6 := rows.filterMap fun row =>
      match loadRow pv6 level row with
      | some (Family.v6, r) => some r
      | _ => none }

/-! ## Change events and the government filter (`core/scanner.py`) -/

/-- A Python value as it appears in a change dictionary field: JSON
integers and strings are distinct and never compare equal, exactly as in
Python. -/
inductive PyVal
  | pint (n : Int)
  | pstr (s : String)
deriving DecidableEq, Repr

/-- Model of Python `str(v)`. -/
def pyStr : PyVal → String
  | PyVal.pint n => toString n
  | PyVal.pstr s => s

/-- The fields of one change dictionary that the claims touch: the
`rcid` (as delivered by the JSON response, an integer), the editor
field `user`, and the timestamp.  Timestamps are modelled as integers:
`dateutil.parser.isoparse` is order-preserving, so the `max` and
comparison logic is unchanged. -/
structure Change where
  rcid : PyVal
  user : String
  timestamp : Int
deriving DecidableEq, Repr

/-- `filter_government_changes` (lines 70-86): skip events whose `rcid`
is already in `processed_ids`, keep events whose editor parses as an
address (`is_ip_address`, oracle `isIp`) and is matched by the
classifier (`ck`, the bound `ip_cache.check_ip`).  The translation keeps
the loop structure: the processed set is read but never written here. -/
def filter_government_changes (isIp : String → Bool) (ck : String → Bool × String)
    (processed : List PyVal) : List Change → List Change
  | [] => []
  | c :: rest =>
    if c.rcid ∈ processed then
      filter_government_changes isIp ck processed rest
    else if isIp c.user && (ck c.user).1 then
      c :: filter_government_changes isIp ck processed rest
    else
      filter_government_changes isIp ck processed rest

/-! ## Historical mode state dynamics (`modes/historical.py`) -/

/-- One queued item of `HistoricalProcessor.queue`:
`{"data": edit, "screenshot": None, "posted": False}`. -/
structure QEntry where
  data : Change
  screenshot : Option String
  posted : Bool
deriving DecidableEq, Repr

/-- The in-memory `HistoricalProcessor.state` (plus queue) during a run.
`processed_rcids` is a Python set; it is modelled as a list read through
membership. -/
structure RunState where
  last_timestamp : Option Int
  processed_rcids : List PyVal
  continue_token : Option String
  queue : List QEntry
deriving DecidableEq, Repr

/-- Python `max` over the timestamps of a nonempty change list. -/
def maxTs (c : Change) (cs : List Change) : Int :=
  cs.foldl (fun m e => max m e.timestamp) c.timestamp

/-- The state update of a successful `fetch_historical_changes`
(lines 151-157): when the batch is nonempty, `last_timestamp` becomes
the maximum timestamp of the whole batch and the continuation token is
stored (then the state is saved; persistence is external). -/
def fetchUpdate (st : RunState) (changes : List Change) (token : Option String) :
    RunState :=
  match changes with
  | [] => st
  | c :: cs => { st with last_timestamp := some (maxTs c cs), continue_token := token }

/-- The state update of `HistoricalProcessor.process_changes`
(lines 180-217): filter the batch for government edits, queue them, and
when any were found extend `processed_rcids` with `str(rcid)` of each
and reset `last_timestamp` to the maximum timestamp among the
government edits only. -/
def processUpdate (isIp : String → Bool) (ck : String → Bool × String)
    (st : RunState) (changes : List Change) : RunState :=
  match changes with
  | [] => st
  | _ :: _ =>
    let gov := filter_government_changes isIp ck st.processed_rcids changes
    let st1 := { st with queue := st.queue ++ gov.map fun e => ⟨e, none, false⟩ }
    match gov with
    | [] => st1
    | g :: gs =>
      { st1 with
        processed_rcids :=
          st1.processed_rcids ++ (g :: gs).map fun e => PyVal.pstr (pyStr e.rcid)
        last_timestamp := some (maxTs g gs) }

/-- One iteration of `HistoricalProcessor.run`'s main loop on an
already-fetched response: the fetch-time state update, the loop's own
token assignment (line 309), then batch processing. -/
def histCycle (isIp : String → Bool) (ck : String → Bool × String)
    (st : RunState) (changes : List Change) (token : Option String) : RunState :=
  let st1 := fetchUpdate st changes token
  let st2 := { st1 with continue_token := token }
  processUpdate isIp ck st2 changes

/-! ## Network fetch outcomes (`core/scanner.py`, `modes/historical.py`) -/

/-- Outcome of one HTTP request: a parsed response, or a transient
network failure (`requests.RequestException`, timeout, reset). -/
inductive NetResult (α : Type)
  | ok (val : α)
  | netErr
deriving DecidableEq, Repr

/-- `fetch_recent_changes` (polled mode): a network failure is absorbed
and yields the empty batch `{"query": {"recentchanges": []}}`. -/
def fetch_recent_changes (resp : NetResult (List Change)) : List Change :=
  match resp with
  | NetResult.ok cs => cs
  | NetResult.netErr => []

/-- Whether an `Except` value is the success case. -/
def exceptOk {ε α : Type} : Except ε α → Bool
  | Except.ok _ => true
  | Except.error _ => false

/-- `HistoricalProcessor.fetch_historical_changes` (lines 138-178): on
success, apply the fetch-time state update and return the batch and
token; on a network failure, clear the continuation token, save state,
and re-raise — modelled as `Except.error` carrying the saved state. -/
def fetch_historical_changes (st : RunState)
    (resp : NetResult (List Change × Option String)) :
    Except RunState (RunState × List Change × Option String) :=
  match resp with
  | NetResult.ok (changes, token) =>
    Except.ok (fetchUpdate st changes token, changes, token)
  | NetResult.netErr => Except.error { st with continue_token := none }

/-! ## Gap detection (`modes/streaming.py`) -/

/-- Python `timedelta.days`: floor division of the gap in seconds by
86400.  For the positive divisor, Lean's `Int` division (`Int.ediv`,
nonnegative remainder) coincides with Python's floor division. -/
def timedelta_days (diff : Int) : Int := diff / 86400

/-- `check_gap_and_run_catchup` (lines 41-74), as the pure decision it
computes: timestamps are integers (seconds), `none` models a missing
`last_timestamp`, and the result is whether `gap.days > 31`. -/
def check_gap_and_run_catchup (last_timestamp : Option Int) (now : Int) : Bool :=
  match last_timestamp with
  | none => false
  | some t => decide (timedelta_days (now - t) > 31)

/-! ## Sensitive content detection (`processors/content_detector.py`) -/

/-- `detect_sensitive_content`, with the `re.finditer` runs of
`PHONE_PATTERNS` and `ADDRESS_PATTERNS` supplied as oracle functions
(one per pattern, returning the matched substrings in order): phone
matches equal to a known id are excluded, address matches are appended
unconditionally, and the flag is nonemptiness of the match list. -/
def detect_sensitive_content
    (phonePatternFns addressPatternFns : List (String → List String))
    (text : String) (knownIds : List String) : Bool × List (String × String) :=
  let phones := phonePatternFns.foldl
    (fun acc pat =>
      acc ++ ((pat text).filter fun m => !(decide (m ∈ knownIds))).map
        fun m => ("phone_number", m))
    []
  let found := addressPatternFns.foldl
    (fun acc pat => acc ++ (pat text).map fun m => ("address", m))
    phones
  (!found.isEmpty, found)

/-! ## State persistence (`HistoricalProcessor.save_state` / `load_state`) -/

/-- Python truthiness of an optional string: `None` and `""` are falsy. -/
def truthyS : Option String → Bool
  | none => false
  | some s => !(s == "")

/-- The in-memory processing state at the persistence boundary, with
the string representations the JSON file holds.  `processed_rcids` is a
Python set modelled as a list read through membership. -/
structure ProcState where
  last_timestamp : Option String
  processed_rcids : List String
  continue_token : Option String
  queue : List QEntry
deriving DecidableEq, Repr

/-- The JSON document written by `save_state`:
`processed_rcids` becomes `list(set)`. -/
structure StoredState where
  last_timestamp : Option String
  processed_rcids : List String
  continue_token : Option String
  queue : List QEntry
deriving DecidableEq, Repr

/-- `HistoricalProcessor.save_state`: dump the state; `list(set)` is
modelled as deduplication of the membership list. -/
def save_state (st : ProcState) : StoredState :=
  ⟨st.last_timestamp, st.processed_rcids.dedup, st.continue_token, st.queue⟩

/-- `HistoricalProcessor.load_state`: `none` for the document models a
missing or unreadable file (default state); otherwise validate the
timestamp with the `dateutil.parser.isoparse` oracle `isoOk` (only
reached when the value is truthy), then discard a truthy continuation
token lacking a truthy timestamp. -/
def load_state (isoOk : String → Bool) (doc : Option StoredState) : ProcState :=
  match doc with
  | none => ⟨none, [], none, []⟩
  | some d =>
    let last1 : Option String :=
      match d.last_timestamp with
      | none => none
      | some s => if s == "" then some s else if isoOk s then some s else none
    let token1 : Option String :=
      if truthyS d.continue_token && !(truthyS last1) then none else d.continue_token
    ⟨last1, d.processed_rcids, token1, d.queue⟩

/-! ## Concrete fixtures for witnesses and counterexamples -/

/-- A concrete instantiation of the address-parsing oracle for
dotted-quad IPv4 query strings, composed exactly as `check_ip` does:
`normalize_ipv4` followed by the `ipaddress` parse. -/
def parse0 : String → Option (Family × Nat) := fun s =>
  (parseIPv4 (normalize_ipv4 s)).map fun v => (Family.v4, v)

/-- A one-range classifier table: the single address `3.3.3.3`. -/
def nets0 : Networks := ⟨[⟨50529027, 50529027, "Org A", true, false⟩], []⟩

/-- Concrete `is_ip_address` oracle consistent with `parse0`. -/
def isIp0 : String → Bool := fun s => (parse0 s).isSome

/-- The bound `ip_cache.check_ip` for the fixture table. -/
def ck0 : String → Bool × String := check_ip_str parse0 nets0

/-- A government edit (editor `3.3.3.3`, in `nets0`) at time 5. -/
def chA : Change := ⟨PyVal.pint 5, "3.3.3.3", 5⟩

/-- A non-government edit (editor `9.9.9.9`) at time 10. -/
def chB : Change := ⟨PyVal.pint 6, "9.9.9.9", 10⟩

/-- A run state with cursor at time 0 and nothing processed. -/
def st0 : RunState := ⟨some 0, [], none, []⟩

/-- IPv6 parse oracle for tables that contain no IPv6 rows. -/
def pv6none : String → Option Nat := fun _ => none

/-- A range-table row whose organization matches the congress keyword
list (`white house`) while its `is_federal` column says `no`. -/
def rowWH : CsvRow := ⟨"0.0.0.0", "0.0.0.10", "white house", "no"⟩

/-! ## Helper lemmas -/

/-- The linear scan of `check_ip` returns the first matching range, in
`List.find?` form. -/
theorem scanRanges_find (v : Nat) (l : List NetRange) :
    scanRanges v l =
      match l.find? (rangeContains v) with
      | some r => (true, r.org)
      | none => (false, "") := by
  induction l with
  | nil => rfl
  | cons r rest ih =>
    by_cases h : rangeContains v r
    · simp [scanRanges, List.find?_cons_of_pos, h]
    · simp [scanRanges, List.find?_cons_of_neg, h, ih]

/-- The scan reports a hit exactly when some loaded range contains the
value. -/
theorem scan_fst_iff (v : Nat) (l : List NetRange) :
    (scanRanges v l).1 = true ↔ ∃ r ∈ l, rangeContains v r = true := by
  induction l with
  | nil => simp [scanRanges]
  | cons r rest ih =>
    by_cases h : rangeContains v r
    · simp [scanRanges, h]
    · simp [scanRanges, h, ih]

/-- The government filter is a pointwise filter: the predicate for one
event never depends on the other events of the batch. -/
theorem filterGov_eq_filter (isIp : String → Bool) (ck : String → Bool × String)
    (processed : List PyVal) (changes : List Change) :
    filter_government_changes isIp ck processed changes =
      changes.filter fun c =>
        !(decide (c.rcid ∈ processed)) && (isIp c.user && (ck c.user).1) := by
  induction changes with
  | nil => rfl
  | cons c rest ih =>
    by_cases hm : c.rcid ∈ processed
    · simp [filter_government_changes, hm, ih]
    · by_cases hk : (isIp c.user && (ck c.user).1) = true
      · simp [filter_government_changes, hm, hk, ih]
      · simp [filter_government_changes, hm, hk, ih]

/-- A lower bound on the fold seed survives the running maximum. -/
theorem le_foldl_max (t a : Int) (l : List Change) (h : t ≤ a) :
    t ≤ l.foldl (fun m e => max m e.timestamp) a := by
  induction l generalizing a with
  | nil => exact h
  | cons x xs ih => exact ih _ (le_trans h (le_max_left _ _))

/-- A lower bound on the head timestamp bounds the batch maximum. -/
theorem le_maxTs (t : Int) (c : Change) (cs : List Change)
    (h : t ≤ c.timestamp) : t ≤ maxTs c cs :=
  le_foldl_max t c.timestamp cs h

/-- The `'all'` filter level skips nothing. -/
theorem levelKeeps_all (isFed isCon : Bool) : levelKeeps FILTER_ALL isFed isCon = true := by
  rfl

/-- A row kept under any filter level is kept, with the same parsed
range, under `'all'`: the only difference between levels is the pair of
`continue` statements. -/
theorem loadRow_all (pv6 : String → Option Nat) (level : String) (row : CsvRow)
    (x : Family × NetRange) (h : loadRow pv6 level row = some x) :
    loadRow pv6 FILTER_ALL row = some x := by
  simp only [loadRow] at h ⊢
  split at h
  · exact absurd h (by simp)
  · rename_i hmiss
    rw [if_neg hmiss, levelKeeps_all, if_pos rfl]
    split at h
    · exact h
    · exact absurd h (by simp)

/-- Membership in one family list of the loaded table, in terms of
`loadRow` on the source rows. -/
theorem mem_load_famList (pv6 : String → Option Nat) (level : String)
    (rows : List CsvRow) (f : Family) (r : NetRange) :
    r ∈ famList (load_government_networks pv6 level rows) f ↔
      ∃ row ∈ rows, loadRow pv6 level row = some (f, r) := by
  cases f <;>
    simp only [load_government_networks, famList, List.mem_filterMap] <;>
    constructor
  · rintro ⟨row, hrow, hmatch⟩
    refine ⟨row, hrow, ?_⟩
    rcases hload : loadRow pv6 level row with _ | ⟨fam, r'⟩
    · rw [hload] at hmatch; simp at hmatch
    · rw [hload] at hmatch
      cases fam
      · simp at hmatch; rw [hmatch]
      · simp at hmatch
  · rintro ⟨row, hrow, hload⟩
    exact ⟨row, hrow, by rw [hload]⟩
  · rintro ⟨row, hrow, hmatch⟩
    refine ⟨row, hrow, ?_⟩
    rcases hload : loadRow pv6 level row with _ | ⟨fam, r'⟩
    · rw [hload] at hmatch; simp at hmatch
    · rw [hload] at hmatch
      cases fam
      · simp at hmatch
      · simp at hmatch; rw [hmatch]
  · rintro ⟨row, hrow, hload⟩
    exact ⟨row, hrow, by rw [hload]⟩

/-- An ASCII digit is not whitespace, not a dot, and not a sign. -/
theorem digit_facts (c : Char) (h : isDigitChar c = true) :
    isSpaceChar c = false ∧ c ≠ '.' ∧ c ≠ '-' ∧ c ≠ '+' := by
  refine ⟨?_, ?_, ?_, ?_⟩
  · by_contra hc
    rw [Bool.not_eq_false] at hc
    simp only [isSpaceChar, Bool.or_eq_true, decide_eq_true_eq, or_assoc] at hc
    rcases hc with h1 | h1 | h1 | h1 | h1 | h1 <;> subst h1 <;> exact absurd h (by decide)
  · rintro rfl; exact absurd h (by decide)
  · rintro rfl; exact absurd h (by decide)
  · rintro rfl; exact absurd h (by decide)

/-- Membership in a fold that appends one block per element. -/
theorem mem_foldl_append {α β : Type} (f : α → List β) (l : List α)
    (init : List β) (x : β) :
    (x ∈ l.foldl (fun acc a => acc ++ f a) init) ↔
      x ∈ init ∨ ∃ a ∈ l, x ∈ f a := by
  induction l generalizing init with
  | nil => simp
  | cons a as ih =>
    simp only [List.foldl_cons, ih, List.mem_append, List.mem_cons]
    constructor
    · rintro ((hx | hx) | ⟨b, hb, hx⟩)
      · exact Or.inl hx
      · exact Or.inr ⟨a, Or.inl rfl, hx⟩
      · exact Or.inr ⟨b, Or.inr hb, hx⟩
    · rintro (hx | ⟨b, hb | hb, hx⟩)
      · exact Or.inl (Or.inl hx)
      · subst hb; exact Or.inl (Or.inr hx)
      · exact Or.inr ⟨b, hb, hx⟩

/-! ## Claim theorems -/

/-- Claim C1: for every query string that parses as an address of
family `f` with unsigned integer value `v`, `check_ip` returns
`(true, org)` where `org` is the organization of the first-loaded
family-`f` range whose closed interval contains `v`; with no containing
range it returns `(false, "")`; and for every string that fails to
parse it returns `(false, "")` (`check_ip` is total: no exception
escapes). -/
theorem check_ip_spec (parse : String → Option (Family × Nat)) (nets : Networks)
    (s : String) :
    (∀ f v r, parse s = some (f, v) →
        (famList nets f).find? (rangeContains v) = some r →
        check_ip_str parse nets s = (true, r.org)) ∧
    (∀ f v, parse s = some (f, v) →
        (famList nets f).find? (rangeContains v) = none →
        check_ip_str parse nets s = (false, "")) ∧
    (parse s = none → check_ip_str parse nets s = (false, "")) := by
  refine ⟨?_, ?_, ?_⟩
  · intro f v r hp hf
    simp [check_ip_str, check_ip, hp, scanRanges_find, hf]
  · intro f v hp hf
    simp [check_ip_str, check_ip, hp, scanRanges_find, hf]
  · intro hp
    simp [check_ip_str, check_ip, hp]

/-- Witness for C1 at the fixture table: `3.3.3.3` is matched to
`Org A`. -/
theorem check_ip_spec_witness :
    check_ip_str parse0 nets0 "3.3.3.3" = (true, "Org A") :=
  (check_ip_spec parse0 nets0 "3.3.3.3").1 Family.v4 50529027
    ⟨50529027, 50529027, "Org A", true, false⟩ (by decide) (by decide)

/-- Counterexample to claim C2 as stated: the row organization
`white house` is congress-flagged by the keyword test while its
`is_federal` column is `no`, so the address `5` matches under
`congress` but not under `federal` from the same table. -/
theorem filter_containment_cex :
    (check_ip (load_government_networks pv6none FILTER_CONGRESS [rowWH])
      (some (Family.v4, 5))).1 = true ∧
    (check_ip (load_government_networks pv6none FILTER_FEDERAL [rowWH])
      (some (Family.v4, 5))).1 = false := by
  constructor
  · decide
  · decide

/-- Claim C2 (amended): any address matching under any filter level
also matches under `all`; the `congress`-into-`federal` containment
does not hold in general (see the counterexample). -/
theorem filter_containment_all (pv6 : String → Option Nat) (rows : List CsvRow)
    (level : String) (f : Family) (v : Nat)
    (h : (check_ip (load_government_networks pv6 level rows)
      (some (f, v))).1 = true) :
    (check_ip (load_government_networks pv6 FILTER_ALL rows)
      (some (f, v))).1 = true := by
  simp only [check_ip] at h ⊢
  rw [scan_fst_iff] at h ⊢
  obtain ⟨r, hr, hc⟩ := h
  obtain ⟨row, hrow, hload⟩ := (mem_load_famList pv6 level rows f r).1 hr
  exact ⟨r, (mem_load_famList pv6 FILTER_ALL rows f r).2
    ⟨row, hrow, loadRow_all pv6 level row (f, r) hload⟩, hc⟩

/-- Witness for C2 (amended): the congress-level match of the
counterexample row transports to the `all` level. -/
theorem filter_containment_all_witness :
    (check_ip (load_government_networks pv6none FILTER_ALL [rowWH])
      (some (Family.v4, 5))).1 = true :=
  filter_containment_all pv6none [rowWH] FILTER_CONGRESS Family.v4 5 (by decide)

/-- Counterexample to claim C3 as stated: with cursor at 0, a batch
holding a government edit at time 5 and a non-government edit at
time 10, the fetch-time update sets the cursor to 10 and the
post-batch update then moves it back to 5. -/
theorem last_timestamp_backward_cex :
    (fetchUpdate st0 [chA, chB] none).last_timestamp = some 10 ∧
    (processUpdate isIp0 ck0 (fetchUpdate st0 [chA, chB] none)
      [chA, chB]).last_timestamp = some 5 ∧
    (5 : Int) < 10 := by
  refine ⟨by decide, by decide, by decide⟩

/-- Claim C3 (amended): the cursor is monotone at cycle granularity —
if every timestamp of the fetched batch is at least the current cursor,
one full historical cycle (fetch update, token assignment, batch
processing) leaves the cursor at some value no smaller than before;
inside the cycle the post-batch update may still move it backward from
the fetch-time value (see the counterexample). -/
theorem cycle_timestamp_monotone (isIp : String → Bool) (ck : String → Bool × String)
    (st : RunState) (changes : List Change) (token : Option String) (t : Int)
    (hst : st.last_timestamp = some t)
    (hch : ∀ c ∈ changes, t ≤ c.timestamp) :
    ∃ u, (histCycle isIp ck st changes token).last_timestamp = some u ∧ t ≤ u := by
  cases changes with
  | nil =>
    exact ⟨t, by simp [histCycle, fetchUpdate, processUpdate, hst], le_refl t⟩
  | cons c cs =>
    have hmax : t ≤ maxTs c cs := le_maxTs t c cs (hch c (by simp))
    simp only [histCycle, fetchUpdate, processUpdate]
    rcases hgov : filter_government_changes isIp ck st.processed_rcids (c :: cs) with
      _ | ⟨g, gs⟩
    · exact ⟨maxTs c cs, rfl, hmax⟩
    · refine ⟨maxTs g gs, rfl, ?_⟩
      have hg : g ∈ filter_government_changes isIp ck st.processed_rcids (c :: cs) := by
        rw [hgov]; exact List.mem_cons_self g gs
      rw [filterGov_eq_filter] at hg
      exact le_maxTs t g gs (hch g (List.mem_of_mem_filter hg))

/-- Witness for C3 (amended) on the fixture state and a one-edit
batch. -/
theorem cycle_timestamp_monotone_witness :
    ∃ u, (histCycle isIp0 ck0 st0 [chA] none).last_timestamp = some u ∧ (0 : Int) ≤ u :=
  cycle_timestamp_monotone isIp0 ck0 st0 [chA] none 0 (by decide) (by decide)

/-- Claim C4 is a code bug: the historical pipeline stores `str(rcid)`
in the processed set while the filter checks the raw integer `rcid`, so
an event with integer id 5 is accepted in a first cycle, the set then
holds only the string `"5"`, and the same event is accepted again in a
later cycle. -/
theorem hist_dedupe_mismatch :
    filter_government_changes isIp0 ck0
      ((⟨none, [], none, []⟩ : RunState)).processed_rcids [chA] = [chA] ∧
    (processUpdate isIp0 ck0 ⟨none, [], none, []⟩ [chA]).processed_rcids =
      [PyVal.pstr "5"] ∧
    filter_government_changes isIp0 ck0
      (processUpdate isIp0 ck0 ⟨none, [], none, []⟩ [chA]).processed_rcids
      [chA] = [chA] := by
  refine ⟨by decide, by decide, by decide⟩

/-- Counterexample to claim C5 as stated: on a transient network
failure the historical fetch does not hand an empty batch to its
caller; it propagates the exception (after clearing the continuation
token and saving). -/
theorem historical_fetch_raises_cex :
    fetch_historical_changes st0 NetResult.netErr = Except.error st0 ∧
    exceptOk (fetch_historical_changes st0 NetResult.netErr) = false := by
  exact ⟨rfl, rfl⟩

/-- Claim C5 (amended): the polled fetch absorbs a transient network
failure and returns the empty batch, while the historical fetch clears
its continuation token, saves state, and re-raises (its run loop treats
this as fatal: state saved, backfill stops). -/
theorem transient_failure_behavior :
    fetch_recent_changes NetResult.netErr = [] ∧
    (∀ st : RunState, fetch_historical_changes st NetResult.netErr =
      Except.error { st with continue_token := none }) ∧
    (∀ st : RunState,
      exceptOk (fetch_historical_changes st NetResult.netErr) = false) := by
  exact ⟨rfl, fun _ => rfl, fun _ => rfl⟩

/-- Counterexample to claim C7 as stated: a gap of 31 days and one hour
exceeds the 31-day threshold, yet the decision is `false`, because the
code compares the floored whole-day count `gap.days` with 31. -/
theorem gap_threshold_cex :
    check_gap_and_run_catchup (some 0) (31 * 86400 + 3600) = false ∧
    (31 * 86400 + 3600 : Int) - 0 > 31 * 86400 := by
  refine ⟨by decide, by decide⟩

/-- Claim C7 (amended): the catch-up decision is a pure function that
is `false` for an absent timestamp and otherwise `true` exactly when
the gap reaches 32 whole days (`gap.days > 31` floors the gap); in
particular 40 days in the past yields `true` and 2 days yields
`false`. -/
theorem gap_decision_spec :
    (∀ now : Int, check_gap_and_run_catchup none now = false) ∧
    (∀ t now : Int,
      (check_gap_and_run_catchup (some t) now = true ↔ 32 * 86400 ≤ now - t)) ∧
    check_gap_and_run_catchup (some 0) (40 * 86400) = true ∧
    check_gap_and_run_catchup (some 0) (2 * 86400) = false := by
  refine ⟨fun _ => rfl, fun t now => ?_, by decide, by decide⟩
  simp only [check_gap_and_run_catchup, timedelta_days, decide_eq_true_eq]
  omega

/-- Witness for C7 (amended) at the 40-day instance. -/
theorem gap_decision_spec_witness :
    check_gap_and_run_catchup (some 0) (40 * 86400) = true :=
  gap_decision_spec.2.2.1

/-- Claim C10: within one batch the dedupe set is consulted but never
updated — the government filter is a pointwise filter whose predicate
ignores the rest of the batch, so two same-id events not yet in
`processed_ids` are both accepted; the set is extended only after the
batch is emitted. -/
theorem filter_no_intra_batch_dedupe :
    (∀ (isIp : String → Bool) (ck : String → Bool × String)
        (processed : List PyVal) (changes : List Change),
      filter_government_changes isIp ck processed changes =
        changes.filter fun c =>
          !(decide (c.rcid ∈ processed)) && (isIp c.user && (ck c.user).1)) ∧
    filter_government_changes isIp0 ck0 []
        [⟨PyVal.pint 7, "3.3.3.3", 1⟩, ⟨PyVal.pint 7, "3.3.3.3", 2⟩] =
      [⟨PyVal.pint 7, "3.3.3.3", 1⟩, ⟨PyVal.pint 7, "3.3.3.3", 2⟩] := by
  exact ⟨filterGov_eq_filter, by decide⟩

/-- Counterexample to claim C6 as stated: a state holding the empty
string as continuation token and no timestamp round-trips the token
unchanged instead of discarding it, because the load-time discard
check uses Python truthiness and `""` is falsy. -/
theorem state_token_roundtrip_cex :
    (load_state (fun _ => true)
      (some (save_state ⟨none, [], some "", []⟩))).continue_token = some "" ∧
    (some "" : Option String) ≠ none := by
  refine ⟨by decide, by decide⟩

/-- Claim C6 (amended): for a state whose timestamp is absent or a
nonempty string accepted by the timestamp parser, saving and reloading
reproduces the cursor — same timestamp, same processed-id membership,
same queue — except that a truthy (nonempty) continuation token without
a truthy timestamp is discarded; an empty-string token instead
round-trips unchanged (see the counterexample). -/
theorem state_roundtrip (isoOk : String → Bool) (st : ProcState)
    (hlast : st.last_timestamp = none ∨
      ∃ s, st.last_timestamp = some s ∧ s ≠ "" ∧ isoOk s = true) :
    (load_state isoOk (some (save_state st))).last_timestamp = st.last_timestamp ∧
    (∀ x, x ∈ (load_state isoOk (some (save_state st))).processed_rcids ↔
      x ∈ st.processed_rcids) ∧
    (load_state isoOk (some (save_state st))).queue = st.queue ∧
    (load_state isoOk (some (save_state st))).continue_token =
      (if truthyS st.continue_token && !(truthyS st.last_timestamp) then none
       else st.continue_token) := by
  rcases hlast with h | ⟨s, hs, hne, hok⟩
  · simp [load_state, save_state, h, truthyS, List.mem_dedup]
  · simp [load_state, save_state, hs, hne, hok, truthyS, List.mem_dedup]

/-- Witness for C6 (amended) at a concrete valid state. -/
theorem state_roundtrip_witness :
    (load_state (fun _ => true)
      (some (save_state
        ⟨some "2024-01-01T00:00:00", ["a"], some "tok", []⟩))).last_timestamp =
      some "2024-01-01T00:00:00" :=
  (state_roundtrip (fun _ => true)
    ⟨some "2024-01-01T00:00:00", ["a"], some "tok", []⟩
    (Or.inr ⟨"2024-01-01T00:00:00", rfl, by decide, rfl⟩)).1

/-- Membership in the match list produced by `detect_sensitive_content`:
a phone pair appears exactly for a phone-pattern match not in the known
ids; an address pair appears exactly for an address-pattern match. -/
theorem mem_detect (pp ap : List (String → List String)) (text : String)
    (knownIds : List String) (ty m : String) :
    ((ty, m) ∈ (detect_sensitive_content pp ap text knownIds).2) ↔
      (ty = "phone_number" ∧ m ∉ knownIds ∧ ∃ pat ∈ pp, m ∈ pat text) ∨
      (ty = "address" ∧ ∃ pat ∈ ap, m ∈ pat text) := by
  simp only [detect_sensitive_content]
  rw [mem_foldl_append, mem_foldl_append]
  simp only [List.not_mem_nil, false_or, List.mem_map, List.mem_filter,
    Bool.not_eq_true', decide_eq_false_iff_not, Prod.mk.injEq]
  constructor
  · rintro (⟨pat, hpat, a, ⟨ha, hk⟩, he, hm⟩ | ⟨pat, hpat, a, ha, he, hm⟩)
    · subst he; subst hm; exact Or.inl ⟨rfl, hk, pat, hpat, ha⟩
    · subst he; subst hm; exact Or.inr ⟨rfl, pat, hpat, ha⟩
  · rintro (⟨hty, hk, pat, hpat, ha⟩ | ⟨hty, pat, hpat, ha⟩)
    · exact Or.inl ⟨pat, hpat, m, ⟨ha, hk⟩, hty.symm, rfl⟩
    · exact Or.inr ⟨pat, hpat, m, ha, hty.symm, rfl⟩

/-- Claim C9: on the identifiers the pipeline actually passes (numeric
revision-id strings, or `"None"` for a missing parent), and given that
every address-pattern match contains whitespace (both address regexes
require it), detection reports exactly the phone matches not equal to a
known identifier together with all address matches — no surviving match
equals a known identifier — and flags `true` exactly when a match
remains. -/
theorem detect_sensitive_spec (pp ap : List (String → List String))
    (text : String) (knownIds : List String)
    (hid : ∀ id ∈ knownIds, id.toList.all isDigitChar = true ∨ id = "None")
    (haddr : ∀ pat ∈ ap, ∀ m ∈ pat text, ∃ c ∈ m.toList, isSpaceChar c = true) :
    ((detect_sensitive_content pp ap text knownIds).1 = true ↔
      (detect_sensitive_content pp ap text knownIds).2 ≠ []) ∧
    (∀ ty m, (ty, m) ∈ (detect_sensitive_content pp ap text knownIds).2 →
      m ∉ knownIds) ∧
    (∀ ty m, (ty, m) ∈ (detect_sensitive_content pp ap text knownIds).2 →
      (ty = "phone_number" ∧ ∃ pat ∈ pp, m ∈ pat text) ∨
      (ty = "address" ∧ ∃ pat ∈ ap, m ∈ pat text)) ∧
    (∀ pat ∈ pp, ∀ m ∈ pat text, m ∉ knownIds →
      ("phone_number", m) ∈ (detect_sensitive_content pp ap text knownIds).2) ∧
    (∀ pat ∈ ap, ∀ m ∈ pat text,
      ("address", m) ∈ (detect_sensitive_content pp ap text knownIds).2) := by
  have haddr_not_known : ∀ pat ∈ ap, ∀ m ∈ pat text, m ∉ knownIds := by
    intro pat hpat m hm hmem
    obtain ⟨c, hc, hsp⟩ := haddr pat hpat m hm
    rcases hid m hmem with hdig | hnone
    · have := List.all_eq_true.mp hdig c hc
      rw [(digit_facts c this).1] at hsp
      exact Bool.false_ne_true hsp
    · subst hnone
      have : ∀ c ∈ "None".toList, isSpaceChar c = false := by decide
      rw [this c hc] at hsp
      exact Bool.false_ne_true hsp
  refine ⟨?_, ?_, ?_, ?_, ?_⟩
  · have hgen : ∀ l : List (String × String), ((!l.isEmpty) = true ↔ l ≠ []) := by
      intro l; cases l <;> simp
    exact hgen (detect_sensitive_content pp ap text knownIds).2
  · intro ty m hm
    rcases (mem_detect pp ap text knownIds ty m).1 hm with ⟨_, hk, _⟩ | ⟨_, pat, hpat, ha⟩
    · exact hk
    · exact haddr_not_known pat hpat m ha
  · intro ty m hm
    rcases (mem_detect pp ap text knownIds ty m).1 hm with ⟨hty, _, hrest⟩ | ⟨hty, hrest⟩
    · exact Or.inl ⟨hty, hrest⟩
    · exact Or.inr ⟨hty, hrest⟩
  · intro pat hpat m hm hk
    exact (mem_detect pp ap text knownIds "phone_number" m).2
      (Or.inl ⟨rfl, hk, pat, hpat, hm⟩)
  · intro pat hpat m hm
    exact (mem_detect pp ap text knownIds "address" m).2 (Or.inr ⟨rfl, pat, hpat, hm⟩)

/-! ## Lemmas for IPv4 normalization (claim C8) -/

/-- Folding one more digit onto the end multiplies the prefix value by
ten and adds the digit. -/
theorem digitsValAux_append (a : Nat) (l : List Char) (c : Char) :
    digitsValAux a (l ++ [c]) = 10 * digitsValAux a l + charVal c := by
  simp [digitsValAux, List.foldl_append]

/-- Value of a digit string extended by one trailing digit. -/
theorem digitsVal_append_singleton (l : List Char) (c : Char) :
    digitsVal (l ++ [c]) = 10 * digitsVal l + charVal c :=
  digitsValAux_append 0 l c

/-- Facts about digit characters below ten. -/
theorem digitChar_small : ∀ n < 10,
    charVal (digitChar n) = n ∧ isDigitChar (digitChar n) = true := by decide

/-- The decimal printer emits digit characters only. -/
theorem natToDigitsCore_all_digit :
    ∀ fuel n, (natToDigitsCore fuel n).all isDigitChar = true := by
  intro fuel
  induction fuel with
  | zero => intro n; rfl
  | succ f ih =>
    intro n
    by_cases h : n < 10
    · simp [natToDigitsCore, h, (digitChar_small n h).2]
    · have h10 : n % 10 < 10 := Nat.mod_lt _ (by norm_num)
      simp [natToDigitsCore, h, List.all_append, ih (n / 10), (digitChar_small _ h10).2]

/-- `natToDigits` emits digit characters only. -/
theorem natToDigits_all_digit (n : Nat) : (natToDigits n).all isDigitChar = true :=
  natToDigitsCore_all_digit (n + 1) n

/-- Printing then revaluing is the identity, given enough fuel. -/
theorem digitsVal_core : ∀ fuel n, n < 10 ^ fuel →
    digitsVal (natToDigitsCore fuel n) = n := by
  intro fuel
  induction fuel with
  | zero =>
    intro n hn
    have h0 : n = 0 := by simpa [Nat.lt_one_iff] using hn
    subst h0; rfl
  | succ f ih =>
    intro n hn
    by_cases h : n < 10
    · simp [natToDigitsCore, h, digitsVal, digitsValAux, (digitChar_small n h).1]
    · have hdiv : n / 10 < 10 ^ f := by
        rw [Nat.div_lt_iff_lt_mul (by norm_num)]
        calc n < 10 ^ (f + 1) := hn
        _ = 10 ^ f * 10 := by rw [pow_succ]
      have h10 : n % 10 < 10 := Nat.mod_lt _ (by norm_num)
      rw [natToDigitsCore, if_neg h, digitsVal_append_singleton, ih (n / 10) hdiv,
        (digitChar_small _ h10).1]
      omega

/-- Printing then revaluing is the identity. -/
theorem digitsVal_natToDigits (n : Nat) : digitsVal (natToDigits n) = n :=
  digitsVal_core (n + 1) n
    (lt_of_lt_of_le (Nat.lt_pow_self (by norm_num) n)
      (Nat.pow_le_pow_right (by norm_num) (Nat.le_succ n)))

/-- The octet check of `IPv4Address` accepts every printed value up to
255 and returns the value itself. -/
theorem parseOctet_print_small : ∀ v < 256, parseOctetChars (natToDigits v) = some v := by
  decide

/-- The octet check of `IPv4Address` rejects every printed value above
255. -/
theorem parseOctet_print_large (v : Nat) (h : 255 < v) :
    parseOctetChars (natToDigits v) = none := by
  unfold parseOctetChars
  split
  · rw [digitsVal_natToDigits, if_neg (by omega)]
  · rfl

/-- `dropWhile` is the identity on lists with no leading match. -/
theorem dropWhile_space_eq_self (l : List Char) (h : ∀ c ∈ l, isSpaceChar c = false) :
    l.dropWhile isSpaceChar = l := by
  cases l with
  | nil => rfl
  | cons a as => simp [List.dropWhile_cons, h a (by simp)]

/-- Stripping is the identity on whitespace-free strings. -/
theorem pyStrip_eq_self (l : List Char) (h : ∀ c ∈ l, isSpaceChar c = false) :
    pyStrip l = l := by
  unfold pyStrip
  rw [dropWhile_space_eq_self l h,
    dropWhile_space_eq_self l.reverse (fun c hc => h c (List.mem_reverse.mp hc))]
  exact List.reverse_reverse l

/-- Splitting a dot-free string yields the one-part list. -/
theorem splitOnDot_no_dot (l : List Char) (h : '.' ∉ l) : splitOnDot l = [l] := by
  induction l with
  | nil => rfl
  | cons c rest ih =>
    have hc : ¬ c = '.' := fun e => h (by rw [e]; exact List.mem_cons_self _ _)
    have h' : '.' ∉ rest := fun m => h (List.mem_cons_of_mem _ m)
    simp [splitOnDot, hc, ih h']

/-- Splitting after a dot-free head part peels it off. -/
theorem splitOnDot_append (a rest : List Char) (h : '.' ∉ a) :
    splitOnDot (a ++ '.' :: rest) = a :: splitOnDot rest := by
  induction a with
  | nil => simp [splitOnDot]
  | cons c a' ih =>
    have hc : ¬ c = '.' := fun e => h (by rw [e]; exact List.mem_cons_self _ _)
    have h' : '.' ∉ a' := fun m => h (List.mem_cons_of_mem _ m)
    simp [splitOnDot, hc, ih h']

/-- `int()` on a nonempty digit string returns its decimal value. -/
theorem pyIntChars_digits (c : Char) (rest : List Char)
    (h : (c :: rest).all isDigitChar = true) :
    pyIntChars (c :: rest) = some (Int.ofNat (digitsVal (c :: rest))) := by
  have hmem := List.all_eq_true.mp h
  have hsp : ∀ x ∈ c :: rest, isSpaceChar x = false :=
    fun x hx => (digit_facts x (hmem x hx)).1
  have hfacts := digit_facts c (hmem c (List.mem_cons_self c rest))
  simp only [pyIntChars, pyStrip_eq_self _ hsp]
  rw [if_neg hfacts.2.2.1, if_neg hfacts.2.2.2, if_pos h]

/-- One octet of `normalize_ipv4` maps every digit string (including
the blank one) to the canonical print of its value. -/
theorem normalizePart_digits (p : List Char) (h : p.all isDigitChar = true) :
    normalizePart p = some (natToDigits (digitsVal p)) := by
  cases p with
  | nil => rfl
  | cons c rest =>
    have hmem := List.all_eq_true.mp h
    have hsp : ∀ x ∈ c :: rest, isSpaceChar x = false :=
      fun x hx => (digit_facts x (hmem x hx)).1
    unfold normalizePart
    rw [pyStrip_eq_self _ hsp, if_neg (by simp), pyIntChars_digits c rest h]
    rfl

/-- A digit string contains no dot. -/
theorem no_dot_of_all_digit (p : List Char) (h : p.all isDigitChar = true) :
    '.' ∉ p :=
  fun hm => absurd (List.all_eq_true.mp h '.' hm) (by decide)

/-- A digit string contains no whitespace. -/
theorem no_space_of_all_digit (p : List Char) (h : p.all isDigitChar = true) :
    ∀ c ∈ p, isSpaceChar c = false :=
  fun c hc => (digit_facts c (List.all_eq_true.mp h c hc)).1

/-- Claim C8: IPv4 normalization strips per-octet leading zeros and
treats blank octets as `0` — the normalized form of any four dot-joined
digit strings is the canonical print of their values, parses to the
canonical integer value when every octet value is at most 255, and is
rejected by the address parser when any octet value exceeds 255. -/
theorem normalize_ipv4_spec (p1 p2 p3 p4 : List Char)
    (h1 : p1.all isDigitChar = true) (h2 : p2.all isDigitChar = true)
    (h3 : p3.all isDigitChar = true) (h4 : p4.all isDigitChar = true) :
    normalize_ipv4 (String.mk (joinDots [p1, p2, p3, p4])) =
      String.mk (joinDots [natToDigits (digitsVal p1), natToDigits (digitsVal p2),
        natToDigits (digitsVal p3), natToDigits (digitsVal p4)]) ∧
    (digitsVal p1 ≤ 255 → digitsVal p2 ≤ 255 → digitsVal p3 ≤ 255 →
      digitsVal p4 ≤ 255 →
      parseIPv4 (normalize_ipv4 (String.mk (joinDots [p1, p2, p3, p4]))) =
        some (((digitsVal p1 * 256 + digitsVal p2) * 256 + digitsVal p3) * 256 +
          digitsVal p4)) ∧
    ((255 < digitsVal p1 ∨ 255 < digitsVal p2 ∨ 255 < digitsVal p3 ∨
        255 < digitsVal p4) →
      parseIPv4 (normalize_ipv4 (String.mk (joinDots [p1, p2, p3, p4]))) = none) := by
  have hj : joinDots [p1, p2, p3, p4] =
      p1 ++ '.' :: (p2 ++ '.' :: (p3 ++ '.' :: p4)) := rfl
  have hstrip : pyStrip (joinDots [p1, p2, p3, p4]) = joinDots [p1, p2, p3, p4] := by
    refine pyStrip_eq_self _ ?_
    intro c hc
    rw [hj] at hc
    simp only [List.mem_append, List.mem_cons] at hc
    rcases hc with hc | hc | hc | hc | hc | hc | hc
    · exact no_space_of_all_digit p1 h1 c hc
    · subst hc; decide
    · exact no_space_of_all_digit p2 h2 c hc
    · subst hc; decide
    · exact no_space_of_all_digit p3 h3 c hc
    · subst hc; decide
    · exact no_space_of_all_digit p4 h4 c hc
  have hsplit : splitOnDot (joinDots [p1, p2, p3, p4]) = [p1, p2, p3, p4] := by
    rw [hj, splitOnDot_append _ _ (no_dot_of_all_digit p1 h1),
      splitOnDot_append _ _ (no_dot_of_all_digit p2 h2),
      splitOnDot_append _ _ (no_dot_of_all_digit p3 h3),
      splitOnDot_no_dot _ (no_dot_of_all_digit p4 h4)]
  have hparts : normalizeParts [p1, p2, p3, p4] =
      some [natToDigits (digitsVal p1), natToDigits (digitsVal p2),
        natToDigits (digitsVal p3), natToDigits (digitsVal p4)] := by
    simp [normalizeParts, normalizePart_digits _ h1, normalizePart_digits _ h2,
      normalizePart_digits _ h3, normalizePart_digits _ h4]
  have ht : (String.mk (joinDots [p1, p2, p3, p4])).toList =
      joinDots [p1, p2, p3, p4] := rfl
  have hnorm : normalize_ipv4 (String.mk (joinDots [p1, p2, p3, p4])) =
      String.mk (joinDots [natToDigits (digitsVal p1), natToDigits (digitsVal p2),
        natToDigits (digitsVal p3), natToDigits (digitsVal p4)]) := by
    simp only [normalize_ipv4, ht, hstrip, hsplit, hparts]
  have ht2 : (String.mk (joinDots [natToDigits (digitsVal p1),
      natToDigits (digitsVal p2), natToDigits (digitsVal p3),
      natToDigits (digitsVal p4)])).toList =
      joinDots [natToDigits (digitsVal p1), natToDigits (digitsVal p2),
        natToDigits (digitsVal p3), natToDigits (digitsVal p4)] := rfl
  have hsplit2 : splitOnDot (joinDots [natToDigits (digitsVal p1),
      natToDigits (digitsVal p2), natToDigits (digitsVal p3),
      natToDigits (digitsVal p4)]) =
      [natToDigits (digitsVal p1), natToDigits (digitsVal p2),
        natToDigits (digitsVal p3), natToDigits (digitsVal p4)] := by
    rw [show joinDots [natToDigits (digitsVal p1), natToDigits (digitsVal p2),
        natToDigits (digitsVal p3), natToDigits (digitsVal p4)] =
        natToDigits (digitsVal p1) ++ '.' :: (natToDigits (digitsVal p2) ++
          '.' :: (natToDigits (digitsVal p3) ++ '.' :: natToDigits (digitsVal p4)))
      from rfl,
      splitOnDot_append _ _ (no_dot_of_all_digit _ (natToDigits_all_digit _)),
      splitOnDot_append _ _ (no_dot_of_all_digit _ (natToDigits_all_digit _)),
      splitOnDot_append _ _ (no_dot_of_all_digit _ (natToDigits_all_digit _)),
      splitOnDot_no_dot _ (no_dot_of_all_digit _ (natToDigits_all_digit _))]
  refine ⟨hnorm, ?_, ?_⟩
  · intro b1 b2 b3 b4
    have o1 : parseOctetChars (natToDigits (digitsVal p1)) = some (digitsVal p1) :=
      parseOctet_print_small _ (by omega)
    have o2 : parseOctetChars (natToDigits (digitsVal p2)) = some (digitsVal p2) :=
      parseOctet_print_small _ (by omega)
    have o3 : parseOctetChars (natToDigits (digitsVal p3)) = some (digitsVal p3) :=
      parseOctet_print_small _ (by omega)
    have o4 : parseOctetChars (natToDigits (digitsVal p4)) = some (digitsVal p4) :=
      parseOctet_print_small _ (by omega)
    rw [hnorm]
    simp only [parseIPv4, ht2, hsplit2, o1, o2, o3, o4]
  · intro hbig
    rw [hnorm]
    simp only [parseIPv4, ht2, hsplit2]
    rcases hbig with hb | hb | hb | hb
    · rw [parseOctet_print_large _ hb]
    · rw [parseOctet_print_large _ hb]
      cases parseOctetChars (natToDigits (digitsVal p1)) <;> rfl
    · rw [parseOctet_print_large _ hb]
      cases parseOctetChars (natToDigits (digitsVal p1)) with
      | none => rfl
      | some a => cases parseOctetChars (natToDigits (digitsVal p2)) <;> rfl
    · rw [parseOctet_print_large _ hb]
      cases parseOctetChars (natToDigits (digitsVal p1)) with
      | none => rfl
      | some a =>
        cases parseOctetChars (natToDigits (digitsVal p2)) with
        | none => rfl
        | some b => cases parseOctetChars (natToDigits (digitsVal p3)) <;> rfl

/-- Witness for C8 at the spec example: `023.090.088.005` normalizes to
`23.90.88.5` and parses to its canonical integer value. -/
theorem normalize_ipv4_spec_witness :
    normalize_ipv4 "023.090.088.005" = "23.90.88.5" ∧
    parseIPv4 (normalize_ipv4 "023.090.088.005") = some 391796741 := by
  have h := normalize_ipv4_spec ['0', '2', '3'] ['0', '9', '0']
    ['0', '8', '8'] ['0', '0', '5'] (by decide) (by decide) (by decide) (by decide)
  have e : "023.090.088.005" = String.mk (joinDots [['0', '2', '3'],
      ['0', '9', '0'], ['0', '8', '8'], ['0', '0', '5']]) := rfl
  constructor
  · rw [e, h.1]; decide
  · rw [e]
    exact (h.2.1 (by decide) (by decide) (by decide) (by decide)).trans (by decide)

/-- Concrete model of `re.finditer(PHONE_PATTERNS[0], text)` on the
spec scenario text `"call 555-123-4567"`. -/
def phonePat0 : String → List String := fun t =>
  if t = "call 555-123-4567" then ["555-123-4567"] else []

/-- Concrete model of `re.finditer(PHONE_PATTERNS[1], text)` on the
same text: the parenthesized pattern does not match it. -/
def phonePat1 : String → List String := fun _ => []

/-- Witness for C9 at the spec scenario: the phone-shaped substring is
reported when it is not one of the event's identifiers. -/
theorem detect_sensitive_spec_witness :
    ("phone_number", "555-123-4567") ∈
      (detect_sensitive_content [phonePat0, phonePat1] []
        "call 555-123-4567" ["111", "None"]).2 := by
  have h := detect_sensitive_spec [phonePat0, phonePat1] []
    "call 555-123-4567" ["111", "None"] (by decide) (by simp)
  exact h.2.2.2.1 phonePat0 (List.mem_cons_self _ _) "555-123-4567"
    (by decide) (by decide)

end Gov
